import Mathlib

/-!
Shallow embedding of `src/queue.rs` (a Rust port of a single-producer /
single-consumer queue) and proofs about the claims of its specification.

Modelling conventions:
* `usize` is 64-bit; release-mode wrapping arithmetic is made explicit with
  `% 2 ^ 64` (`usize_sub` below models `wrapping_sub`).
* Pointers are modelled as indices into an explicit heap (`Heap := List Block`);
  `null_mut()` is modelled as index `0`, which is harmless because every
  constructor overwrites the `next` field before a block becomes reachable.
* The claims under study are sequential (single-threaded) properties, so the
  atomics collapse to plain reads and writes and the fences are no-ops.
* A Rust `panic` / failed `assert!` is modelled by returning `none` from the
  embedded operation.
* Element type `T` is instantiated with `Nat`; a block's raw storage is
  modelled as a list of `capacity` slots (the byte-level allocation size of
  `make_block`, which is the subject of its own claim, is modelled separately
  by `make_block_alloc_size`).
* `drop_in_place` calls executed by the queue are counted explicitly
  (the `drops` field of `DeqOut`, and the result of `queue_drop`).
-/

namespace RWQueue

/-- Embeds Rust `usize::wrapping_sub` on 64-bit: `(a - b) mod 2^64`. -/
def usize_sub (a b : Nat) : Nat :=
  (a % 2 ^ 64 + (2 ^ 64 - b % 2 ^ 64)) % 2 ^ 64

/-- One smearing step `x | (x >> d)` of `ceil_to_pow2` (queue.rs:391-397). -/
def smear_step (d x : Nat) : Nat :=
  x ||| x >>> d

/-- The full bit-smear of `ceil_to_pow2` (queue.rs:391-398).  On a 64-bit
`usize` (`size_of::<usize>() = 8`) the `while` loop at lines 394-398 runs
with `i = 1, 2, 4`, performing the shifts by `1 << 3 = 8`, `16` and `32`;
together with the explicit shifts by 1, 2 and 4 this gives the six steps. -/
def smear (x : Nat) : Nat :=
  smear_step 32 (smear_step 16 (smear_step 8 (smear_step 4 (smear_step 2 (smear_step 1 x)))))

/-- Embeds `ceil_to_pow2` (queue.rs:387-401): `x -= 1`, the bit smear, then
`x += 1`, all with 64-bit wrapping semantics (`x - 1` is
`(x + 2^64 - 1) mod 2^64`, and the final increment is reduced mod `2^64`). -/
def ceil_to_pow2 (x : Nat) : Nat :=
  (smear ((x + (2 ^ 64 - 1)) % 2 ^ 64) + 1) % 2 ^ 64

/-- Embeds `struct Block` (queue.rs:347-361).  The two cache-line fillers are
layout-only and carry no state; `data` holds the element storage itself
(one slot per element of the block's capacity) instead of a raw pointer;
`raw_this` is only used to free the allocation and is dropped from the model. -/
structure Block where
  front : Nat
  local_tail : Nat
  tail : Nat
  local_front : Nat
  next : Nat
  data : List Nat
  size_mask : Nat
deriving DecidableEq, Repr

/-- Embeds `Block::new(size, raw_this, data)` (queue.rs:364-377): zero cursors,
null (`0`) next pointer, `size_mask = size - 1` (usize wrapping subtraction),
and uninitialised storage of `size` slots (modelled as zeros). -/
def Block.new (size : Nat) : Block :=
  { front := 0
    local_tail := 0
    tail := 0
    local_front := 0
    next := 0
    data := List.replicate size 0
    size_mask := usize_sub size 1 }

instance : Inhabited Block := ⟨Block.new 0⟩

/-- The heap: block pointers are indices into this list. -/
abbrev Heap := List Block

/-- Dereferences a block pointer. -/
def getBlock (h : Heap) (p : Nat) : Block :=
  h.getD p default

/-- Writes through a block pointer. -/
def setBlock (h : Heap) (p : Nat) (b : Block) : Heap :=
  h.set p b

/-- Embeds the byte count computed by `make_block` (queue.rs:309-311):
`size_of::<Block>() + align_of::<Block>() - 1` plus
`size_of::<T>() + align_of::<T>() - 1`.  The requested `capacity` parameter
is received but never used by the source's size computation. -/
def make_block_alloc_size (capacity size_of_block align_of_block size_of_t align_of_t : Nat) : Nat :=
  size_of_block + align_of_block - 1 + (size_of_t + align_of_t - 1)

/-- Embeds `make_block(capacity)` (queue.rs:309-318) at the level of the block
record it produces: a `Block::new` of the requested capacity.  (The size of
the backing byte allocation it performs is `make_block_alloc_size`.) -/
def make_block (capacity : Nat) : Block :=
  Block.new capacity

/-- Embeds `ReentrantGuard` (queue.rs:10-13): its one field is the
`AtomicBool` the guard owns. -/
structure ReentrantGuard where
  in_section : Bool
deriving DecidableEq, Repr

/-- Embeds `ReentrantGuard::new(&in_section)` (queue.rs:17-22).  The argument
is the current value of the caller's shared flag.  The `assert!` firing is
modelled as `none`; otherwise the result carries the value of the caller's
shared flag after construction together with the constructed guard.  The
constructor stores `true` into a freshly created `AtomicBool`
(`AtomicBool::new(true)`), so the shared flag comes back unchanged. -/
def ReentrantGuard.new (in_section : Bool) : Option (Bool × ReentrantGuard) :=
  if in_section then none else some (in_section, ⟨true⟩)

/-- Embeds `impl Drop for ReentrantGuard` (queue.rs:26-30): stores `false`
into the guard's own `in_section` field; the caller's shared flag (first
component) is untouched. -/
def ReentrantGuard.drop (shared : Bool) (g : ReentrantGuard) : Bool × ReentrantGuard :=
  (shared, ⟨false⟩)

/-- Embeds `struct ReaderWriterQueue` (queue.rs:32-44) with `T = Nat` and the
cache-line filler dropped.  `front_block` and `tail_block` are block
pointers (heap indices); `enqueuing` / `dequeuing` are the debug guard flags. -/
structure ReaderWriterQueue where
  front_block : Nat
  tail_block : Nat
  largest_block_size : Nat
  enqueuing : Bool
  dequeuing : Bool
deriving DecidableEq, Repr

/-- Embeds the block-allocation loop of `with_size` (queue.rs:71-81), one
recursive call per iteration of `for i in 0..initial_block_count`.  Each
iteration allocates a block (appends it to the heap), links the previous
block to it (unless it is the first), and points the new block at the first
block.  Returns the final heap and `first_block`. -/
def with_size_loop (MAX_BLOCK_SIZE : Nat) :
    Nat → Heap → Option Nat → Option Nat → Heap × Option Nat
  | 0, h, first_block, _ => (h, first_block)
  | fuel + 1, h, first_block, last_block =>
    let block := h.length
    let h := h ++ [make_block MAX_BLOCK_SIZE]
    let fh : Heap × Option Nat :=
      match first_block with
      | none => (h, some block)
      | some f =>
        match last_block with
        | none => (h, some f)
        | some l => (setBlock h l { getBlock h l with next := block }, some f)
    let h := setBlock fh.1 block { getBlock fh.1 block with next := fh.2.getD 0 }
    with_size_loop MAX_BLOCK_SIZE fuel h fh.2 (some block)

/-- Embeds `ReaderWriterQueue::with_size(size)` (queue.rs:54-98) for a given
`MAX_BLOCK_SIZE` const-generic argument.  The source's asserts on
`MAX_BLOCK_SIZE` are the hypotheses of the theorems below. -/
def with_size (MAX_BLOCK_SIZE size : Nat) : ReaderWriterQueue × Heap :=
  let largest_block_size := ceil_to_pow2 (size + 1)
  if MAX_BLOCK_SIZE * 2 < largest_block_size then
    let initial_block_count := (size + MAX_BLOCK_SIZE * 2 - 3) / (MAX_BLOCK_SIZE - 1)
    let p := with_size_loop MAX_BLOCK_SIZE initial_block_count [] none none
    ({ front_block := p.2.getD 0
       tail_block := p.2.getD 0
       largest_block_size := MAX_BLOCK_SIZE
       enqueuing := false
       dequeuing := false }, p.1)
  else
    let h : Heap := [make_block largest_block_size]
    let h := setBlock h 0 { getBlock h 0 with next := 0 }
    ({ front_block := 0
       tail_block := 0
       largest_block_size := largest_block_size
       enqueuing := false
       dequeuing := false }, h)

/-- Embeds `ReaderWriterQueue::new()` (queue.rs:50-52): `with_size(15)`,
with the default `MAX_BLOCK_SIZE = 512`. -/
def rwq_new : ReaderWriterQueue × Heap :=
  with_size 512 15

/-- Embeds `from_other` (queue.rs:100-120): the returned queue takes the
source's two block pointers and `largest_block_size`; the source is then
given `largest_block_size = 32` and a freshly allocated self-linked block.
Result: `(item, updated other, updated heap)`. -/
def from_other (other : ReaderWriterQueue) (h : Heap) :
    ReaderWriterQueue × ReaderWriterQueue × Heap :=
  let item : ReaderWriterQueue :=
    { front_block := other.front_block
      tail_block := other.tail_block
      largest_block_size := other.largest_block_size
      enqueuing := false
      dequeuing := false }
  let other := { other with largest_block_size := 32 }
  let b := h.length
  let h := h ++ [make_block 32]
  let h := setBlock h b { getBlock h b with next := b }
  let other := { other with front_block := b, tail_block := b }
  (item, other, h)

/-- Embeds `inner_enqueue(element, can_alloc)` (queue.rs:301-307).  The source
body acquires the debug guard (whose `assert!` is the `none` branch here)
and then just returns `true`: the element is never stored and no cursor or
block is touched. -/
def inner_enqueue (q : ReaderWriterQueue) (h : Heap) (element : Nat) (can_alloc : Bool) :
    Option (Bool × ReaderWriterQueue × Heap) :=
  if q.enqueuing then none else some (true, q, h)

/-- Embeds `try_enqueue` (queue.rs:122-124): `inner_enqueue(element, false)`. -/
def try_enqueue (q : ReaderWriterQueue) (h : Heap) (element : Nat) :
    Option (Bool × ReaderWriterQueue × Heap) :=
  inner_enqueue q h element false

/-- Embeds `enqueue` (queue.rs:126-128): `inner_enqueue(element, true)`. -/
def enqueue (q : ReaderWriterQueue) (h : Heap) (element : Nat) :
    Option (Bool × ReaderWriterQueue × Heap) :=
  inner_enqueue q h element true

/-- Result of a `try_dequeue` that did not panic: the returned optional
element, the updated queue and heap, and the number of `drop_in_place`
calls the queue executed on element slots during the call. -/
structure DeqOut where
  result : Option Nat
  queue : ReaderWriterQueue
  heap : Heap
  drops : Nat
deriving DecidableEq, Repr

/-- The `non_empty_front_block` body of `try_dequeue` (queue.rs:146-156):
`ptr::read` the element at `block_front` out of the front block (the
returned value), then `drop_in_place` the same slot (one queue-side
destructor call), advance `front` by one under the mask, and store it. -/
def dequeue_front_block (q : ReaderWriterQueue) (h : Heap) (p block_front : Nat) : DeqOut :=
  let b := getBlock h p
  let element := b.data.getD block_front 0
  let block_front := (block_front + 1) &&& b.size_mask
  let h := setBlock h p { b with front := block_front }
  ⟨some element, q, h, 1⟩

/-- Embeds `try_dequeue` (queue.rs:130-209); note the source takes no
re-entrancy guard here.  The short-circuit `||` at lines 137-142 updates
`local_tail` from `tail` only when the first disjunct is false, which is the
nested `if` below.  The failed `assert!` at line 187 is the `none` branch. -/
def try_dequeue (q : ReaderWriterQueue) (h : Heap) : Option DeqOut :=
  let front_block_ := q.front_block
  let fb := getBlock h front_block_
  let block_tail := fb.local_tail
  let block_front := fb.front
  if block_front ≠ block_tail then
    some (dequeue_front_block q h front_block_ block_front)
  else
    let fb := { fb with local_tail := fb.tail }
    let h := setBlock h front_block_ fb
    if block_front ≠ fb.local_tail then
      some (dequeue_front_block q h front_block_ block_front)
    else if front_block_ ≠ q.tail_block then
      let fb := getBlock h front_block_
      let fb := { fb with local_tail := fb.tail }
      let h := setBlock h front_block_ fb
      if block_front ≠ fb.local_tail then
        some (dequeue_front_block q h front_block_ block_front)
      else
        let next_block_ := fb.next
        let nb := getBlock h next_block_
        let next_block_front := nb.front
        let nb := { nb with local_tail := nb.tail }
        let h := setBlock h next_block_ nb
        if next_block_front = nb.local_tail then
          none
        else
          let q := { q with front_block := next_block_ }
          let element := nb.data.getD next_block_front 0
          let next_block_front := (next_block_front + 1) &&& nb.size_mask
          let h := setBlock h next_block_ { nb with front := next_block_front }
          some ⟨some element, q, h, 1⟩
    else
      some ⟨none, q, h, 0⟩

/-- Embeds `peek` (queue.rs:211-258).  The debug guard on `dequeuing` is the
first check; each failed `assert!` (the guard's, or the one at line 251) is a
`none`.  A successful peek returns the element value it exposes, plus the
heap (whose `local_tail` caches the call may have refreshed). -/
def peek (q : ReaderWriterQueue) (h : Heap) : Option (Option Nat × Heap) :=
  if q.dequeuing then none
  else
    let front_block_ := q.front_block
    let fb := getBlock h front_block_
    let block_tail := fb.local_tail
    let block_front := fb.front
    if block_front ≠ block_tail then
      some (some (fb.data.getD block_front 0), h)
    else
      let fb := { fb with local_tail := fb.tail }
      let h := setBlock h front_block_ fb
      if block_front ≠ fb.local_tail then
        some (some (fb.data.getD block_front 0), h)
      else if front_block_ ≠ q.tail_block then
        let fb := getBlock h front_block_
        let fb := { fb with local_tail := fb.tail }
        let h := setBlock h front_block_ fb
        let block_tail := fb.local_tail
        let block_front := fb.front
        if block_front ≠ block_tail then
          some (some (fb.data.getD block_front 0), h)
        else
          let nb := getBlock h fb.next
          let next_block_front := nb.front
          if next_block_front = nb.tail then none
          else some (some (nb.data.getD next_block_front 0), h)
      else
        some (none, h)

/-- Embeds the ring walk of `size_approx` (queue.rs:268-283): add
`(tail - front) & size_mask` (usize wrapping subtraction) for the current
block, advance to `next`, and stop once `next` is the starting block.  The
fuel bounds the walk on a malformed (non-circular) ring. -/
def size_approx_go (h : Heap) (front_block : Nat) : Nat → Nat → Nat
  | 0, _ => 0
  | fuel + 1, block =>
    let b := getBlock h block
    let r := usize_sub b.tail b.front &&& b.size_mask
    if b.next = front_block then r
    else r + size_approx_go h front_block fuel b.next

/-- Embeds `size_approx` (queue.rs:268-283): walk the ring once starting at
`front_block`. -/
def size_approx (q : ReaderWriterQueue) (h : Heap) : Nat :=
  size_approx_go h q.front_block h.length q.front_block

/-- Embeds the inner loop of the `Drop` impl (queue.rs:330-335): the number
of `drop_in_place` calls performed walking `i` from `front` to `tail` under
the mask.  The fuel (`size_mask + 1` at the call site) bounds the wrap. -/
def drop_elems_loop (tail mask : Nat) : Nat → Nat → Nat
  | 0, _ => 0
  | fuel + 1, i =>
    if i = tail then 0 else drop_elems_loop tail mask fuel ((i + 1) &&& mask) + 1

/-- Embeds the ring walk of the `Drop` impl (queue.rs:326-343), counting the
queue-side destructor calls; each block contributes its resident elements
(from `front` to `tail`), and the walk stops after one full circle. -/
def queue_drop_go (h : Heap) (front_block : Nat) : Nat → Nat → Nat
  | 0, _ => 0
  | fuel + 1, block =>
    let b := getBlock h block
    let c := drop_elems_loop b.tail b.size_mask (b.size_mask + 1) b.front
    if b.next = front_block then c
    else c + queue_drop_go h front_block fuel b.next

/-- Embeds `impl Drop for ReaderWriterQueue` (queue.rs:321-344) as the total
count of element destructors the teardown runs. -/
def queue_drop (q : ReaderWriterQueue) (h : Heap) : Nat :=
  queue_drop_go h q.front_block h.length q.front_block

/-- Runs `try_enqueue` once per element of the list, threading the state;
`none` if any call panics.  Returns the list of returned booleans. -/
def try_enqueue_all (q : ReaderWriterQueue) (h : Heap) :
    List Nat → Option (List Bool × ReaderWriterQueue × Heap)
  | [] => some ([], q, h)
  | e :: es =>
    match try_enqueue q h e with
    | none => none
    | some (r, q1, h1) =>
      match try_enqueue_all q1 h1 es with
      | none => none
      | some (rs, q2, h2) => some (r :: rs, q2, h2)

/-- Modelled from the spec's words only (used to state claim C5 as written):
ceiling division `ceil(a / b)`. -/
def ceilDiv (a b : Nat) : Nat :=
  a / b + if a % b = 0 then 0 else 1

/-- The queue state that a correct enqueue of the single element `42` into a
fresh `with_size(15)` queue is specified to leave behind (spec section 4.2,
step 1: element written into slot 0, write cursor advanced to 1, consumer
caches untouched).  Because `inner_enqueue` is a stub, this state is built
directly; it is the failing input for the dequeue double-drop. -/
def queue_after_one_intended_enqueue : ReaderWriterQueue × Heap :=
  let qh := with_size 512 15
  let b := getBlock qh.2 0
  (qh.1, setBlock qh.2 0 { b with tail := 1, data := b.data.set 0 42 })

/-- The block layout the construction loop of `with_size` produces: `n`
blocks, each a fresh `make_block MBS` whose `next` points to the following
block, the last wrapping around to block `0`. -/
def ring_inv (MBS : Nat) (h : Heap) (n : Nat) : Prop :=
  h.length = n ∧ ∀ i, i < n → getBlock h i =
    { make_block MBS with next := if i + 1 = n then 0 else i + 1 }

/-! ### Heap lemmas -/

theorem getBlock_setBlock_self (h : Heap) (p : Nat) (b : Block) (hp : p < h.length) :
    getBlock (setBlock h p b) p = b := by
  induction h generalizing p with
  | nil => simp at hp
  | cons x xs ih =>
    cases p with
    | zero => rfl
    | succ n => exact ih n (by simpa using hp)

theorem getBlock_setBlock_other (h : Heap) (p m : Nat) (b : Block) (hp : p ≠ m) :
    getBlock (setBlock h p b) m = getBlock h m := by
  induction h generalizing p m with
  | nil => rfl
  | cons x xs ih =>
    cases p with
    | zero =>
      cases m with
      | zero => omega
      | succ k => rfl
    | succ j =>
      cases m with
      | zero => rfl
      | succ k => exact ih j k (by omega)

theorem getBlock_append_lt (h h2 : Heap) (p : Nat) (hp : p < h.length) :
    getBlock (h ++ h2) p = getBlock h p := by
  induction h generalizing p with
  | nil => simp at hp
  | cons x xs ih =>
    cases p with
    | zero => rfl
    | succ n => exact ih n (by simpa using hp)

theorem getBlock_append_len (h : Heap) (b : Block) :
    getBlock (h ++ [b]) h.length = b := by
  induction h with
  | nil => rfl
  | cons x xs ih => exact ih

theorem setBlock_length (h : Heap) (p : Nat) (b : Block) :
    (setBlock h p b).length = h.length := by
  simp [setBlock]

/-! ### Bit-smearing: `smear` sets every bit below the highest set bit -/

theorem testBit_smear_step (D y s : Nat)
    (hs : ∀ j, s.testBit j = true ↔ ∃ d, d < D ∧ y.testBit (j + d) = true) (i : Nat) :
    (smear_step D s).testBit i = true ↔ ∃ d, d < 2 * D ∧ y.testBit (i + d) = true := by
  unfold smear_step
  rw [Nat.testBit_lor, Nat.testBit_shiftRight]
  constructor
  · intro hor
    rcases Bool.or_eq_true_iff.mp hor with h1 | h2
    · obtain ⟨d, hd, hbit⟩ := (hs i).mp h1
      exact ⟨d, by omega, hbit⟩
    · obtain ⟨d, hd, hbit⟩ := (hs (D + i)).mp h2
      refine ⟨D + d, by omega, ?_⟩
      have he : i + (D + d) = D + i + d := by omega
      rw [he]; exact hbit
  · rintro ⟨d, hd, hbit⟩
    apply Bool.or_eq_true_iff.mpr
    by_cases hdD : d < D
    · exact Or.inl ((hs i).mpr ⟨d, hdD, hbit⟩)
    · refine Or.inr ((hs (D + i)).mpr ⟨d - D, by omega, ?_⟩)
      have he : D + i + (d - D) = i + d := by omega
      rw [he]; exact hbit

theorem smear_cover (y i : Nat) :
    (smear y).testBit i = true ↔ ∃ d, d < 64 ∧ y.testBit (i + d) = true := by
  have h0 : ∀ j, y.testBit j = true ↔ ∃ d, d < 1 ∧ y.testBit (j + d) = true := by
    intro j
    constructor
    · intro hb; exact ⟨0, by omega, by simpa using hb⟩
    · rintro ⟨d, hd, hb⟩
      have hd0 : d = 0 := by omega
      rw [hd0] at hb; simpa using hb
  have h1 : ∀ j, (smear_step 1 y).testBit j = true ↔ ∃ d, d < 2 ∧ y.testBit (j + d) = true := by
    have := testBit_smear_step 1 y y h0; simpa using this
  have h2 : ∀ j, (smear_step 2 (smear_step 1 y)).testBit j = true ↔
      ∃ d, d < 4 ∧ y.testBit (j + d) = true := by
    have := testBit_smear_step 2 y _ h1; simpa using this
  have h4 : ∀ j, (smear_step 4 (smear_step 2 (smear_step 1 y))).testBit j = true ↔
      ∃ d, d < 8 ∧ y.testBit (j + d) = true := by
    have := testBit_smear_step 4 y _ h2; simpa using this
  have h8 : ∀ j, (smear_step 8 (smear_step 4 (smear_step 2 (smear_step 1 y)))).testBit j = true ↔
      ∃ d, d < 16 ∧ y.testBit (j + d) = true := by
    have := testBit_smear_step 8 y _ h4; simpa using this
  have h16 : ∀ j, (smear_step 16 (smear_step 8 (smear_step 4 (smear_step 2
      (smear_step 1 y))))).testBit j = true ↔ ∃ d, d < 32 ∧ y.testBit (j + d) = true := by
    have := testBit_smear_step 16 y _ h8; simpa using this
  have h32 := testBit_smear_step 32 y _ h16 i
  unfold smear
  simpa using h32

theorem testBit_size_pred (y : Nat) (hy : 0 < y) : y.testBit (Nat.size y - 1) = true := by
  have hpos : 0 < Nat.size y := Nat.size_pos.mpr hy
  have hle : 2 ^ (Nat.size y - 1) ≤ y := Nat.lt_size.mp (by omega)
  have hlt : y < 2 ^ Nat.size y := Nat.lt_size_self y
  have hdiv : y / 2 ^ (Nat.size y - 1) = 1 := by
    apply Nat.div_eq_of_lt_le
    · simpa using hle
    · have he : 2 * 2 ^ (Nat.size y - 1) = 2 ^ Nat.size y := by
        rw [← pow_succ']
        congr 1
        omega
      omega
  rw [Nat.testBit_to_div_mod]
  simp [hdiv]

theorem smear_eq_two_pow_size_sub_one (y : Nat) (hy : y < 2 ^ 64) :
    smear y = 2 ^ Nat.size y - 1 := by
  apply Nat.eq_of_testBit_eq
  intro i
  rcases lt_or_ge i (Nat.size y) with hi | hi
  · have hsz : Nat.size y ≤ 64 := Nat.size_le.mpr hy
    have hbit : y.testBit (Nat.size y - 1) = true :=
      testBit_size_pred y (Nat.size_pos.mp (by omega))
    have hsm : (smear y).testBit i = true := by
      refine (smear_cover y i).mpr ⟨Nat.size y - 1 - i, by omega, ?_⟩
      have he : i + (Nat.size y - 1 - i) = Nat.size y - 1 := by omega
      rw [he]; exact hbit
    rw [hsm, Nat.testBit_two_pow_sub_one]
    simp [hi]
  · have hfw : ∀ d, y.testBit (i + d) = false := by
      intro d
      apply Nat.testBit_eq_false_of_lt
      calc y < 2 ^ Nat.size y := Nat.lt_size_self y
        _ ≤ 2 ^ (i + d) := Nat.pow_le_pow_right (by norm_num) (by omega)
    have hsm : (smear y).testBit i = false := by
      cases hb : (smear y).testBit i
      · rfl
      · obtain ⟨d, _, hbit⟩ := (smear_cover y i).mp hb
        rw [hfw d] at hbit
        exact absurd hbit (by simp)
    rw [hsm, Nat.testBit_two_pow_sub_one]
    simp
    omega

theorem ceil_to_pow2_eq_pow_size (x : Nat) (h1 : 1 ≤ x) (h2 : x ≤ 2 ^ 63) :
    ceil_to_pow2 x = 2 ^ Nat.size (x - 1) := by
  unfold ceil_to_pow2
  have hx1 : x - 1 < 2 ^ 63 := lt_of_lt_of_le (Nat.sub_lt h1 one_pos) h2
  have h63 : (2 : Nat) ^ 63 < 2 ^ 64 := by norm_num
  have e1 : (x + (2 ^ 64 - 1)) % 2 ^ 64 = x - 1 := by
    have he : x + (2 ^ 64 - 1) = (x - 1) + 2 ^ 64 := by omega
    rw [he, Nat.add_mod_right, Nat.mod_eq_of_lt (by omega)]
  rw [e1, smear_eq_two_pow_size_sub_one (x - 1) (by omega)]
  have hsz : Nat.size (x - 1) ≤ 63 := Nat.size_le.mpr hx1
  have hp : 0 < 2 ^ Nat.size (x - 1) := pow_pos (by norm_num) _
  have hlt : 2 ^ Nat.size (x - 1) < 2 ^ 64 := by
    calc 2 ^ Nat.size (x - 1) ≤ 2 ^ 63 := Nat.pow_le_pow_right (by norm_num) hsz
      _ < 2 ^ 64 := by norm_num
  rw [Nat.sub_add_cancel hp, Nat.mod_eq_of_lt hlt]

/-! ### The construction loop builds a cyclically linked ring -/

theorem with_size_loop_inv (MBS : Nat) (fuel : Nat) :
    ∀ (h : Heap) (n : Nat), 1 ≤ n → ring_inv MBS h n →
    (with_size_loop MBS fuel h (some 0) (some (n - 1))).2 = some 0 ∧
    ring_inv MBS (with_size_loop MBS fuel h (some 0) (some (n - 1))).1 (n + fuel) := by
  induction fuel with
  | zero => intro h n h1 hinv; exact ⟨rfl, by simpa using hinv⟩
  | succ fuel ih =>
    intro h n h1 hinv
    obtain ⟨hlen, hblocks⟩ := hinv
    have hprev : getBlock h (n - 1) = { make_block MBS with next := 0 } := by
      have hb := hblocks (n - 1) (by omega)
      rwa [if_pos (by omega)] at hb
    have step : with_size_loop MBS (fuel + 1) h (some 0) (some (n - 1)) =
        with_size_loop MBS fuel
          (setBlock (setBlock (h ++ [make_block MBS]) (n - 1)
              { getBlock (h ++ [make_block MBS]) (n - 1) with next := h.length })
            h.length
            { getBlock (setBlock (h ++ [make_block MBS]) (n - 1)
                { getBlock (h ++ [make_block MBS]) (n - 1) with next := h.length })
                h.length with next := 0 })
          (some 0) (some h.length) := by
      rfl
    rw [step]
    have hlen2 : (h ++ [make_block MBS]).length = n + 1 := by simp [hlen]
    have hga : getBlock (h ++ [make_block MBS]) (n - 1) = { make_block MBS with next := 0 } := by
      rw [getBlock_append_lt _ _ _ (by omega)]; exact hprev
    set h2 := setBlock (h ++ [make_block MBS]) (n - 1)
        { getBlock (h ++ [make_block MBS]) (n - 1) with next := h.length } with hh2
    set h3 := setBlock h2 h.length { getBlock h2 h.length with next := 0 } with hh3
    have hlen_h2 : h2.length = n + 1 := by rw [hh2, setBlock_length]; exact hlen2
    have hlen_h3 : h3.length = n + 1 := by rw [hh3, setBlock_length]; exact hlen_h2
    have hgn : getBlock h2 h.length = make_block MBS := by
      rw [hh2, getBlock_setBlock_other _ _ _ _ (by omega)]
      exact getBlock_append_len h (make_block MBS)
    have hinv3 : ring_inv MBS h3 (n + 1) := by
      refine ⟨hlen_h3, ?_⟩
      intro i hi
      rcases Nat.lt_trichotomy i (n - 1) with hlt | heq | hgt
      · have e3 : getBlock h3 i = getBlock h2 i := by
          rw [hh3, getBlock_setBlock_other _ _ _ _ (by omega)]
        have e2 : getBlock h2 i = getBlock (h ++ [make_block MBS]) i := by
          rw [hh2, getBlock_setBlock_other _ _ _ _ (by omega)]
        have e1 : getBlock (h ++ [make_block MBS]) i = getBlock h i :=
          getBlock_append_lt _ _ _ (by omega)
        rw [e3, e2, e1, hblocks i (by omega), if_neg (by omega), if_neg (by omega)]
      · have e3 : getBlock h3 i = getBlock h2 i := by
          rw [hh3, getBlock_setBlock_other _ _ _ _ (by omega)]
        have e2 : getBlock h2 i = { make_block MBS with next := h.length } := by
          rw [hh2, heq, getBlock_setBlock_self _ _ _ (by omega), hga]
        rw [e3, e2, hlen, if_neg (by omega)]
        have hsucc : i + 1 = n := by omega
        rw [hsucc]
      · have hie : i = n := by omega
        have e3 : getBlock h3 i = { getBlock h2 i with next := 0 } := by
          rw [hh3, hie, ← hlen]
          exact getBlock_setBlock_self _ _ _ (by omega)
        have hgn2 : getBlock h2 i = make_block MBS := by rw [hie, ← hlen]; exact hgn
        rw [e3, hgn2, hie, if_pos rfl]
    have hrec := ih h3 (n + 1) (by omega) hinv3
    have he : n + 1 - 1 = n := by omega
    rw [he] at hrec
    rw [hlen]
    have he2 : n + (fuel + 1) = n + 1 + fuel := by omega
    rw [he2]
    exact hrec

theorem with_size_multi (MBS size : Nat) (h2 : 2 ≤ MBS)
    (hgt : MBS * 2 < ceil_to_pow2 (size + 1)) :
    (with_size MBS size).1 =
      { front_block := 0, tail_block := 0, largest_block_size := MBS,
        enqueuing := false, dequeuing := false } ∧
    ring_inv MBS (with_size MBS size).2 ((size + MBS * 2 - 3) / (MBS - 1)) := by
  have hcnt : 1 ≤ (size + MBS * 2 - 3) / (MBS - 1) :=
    (Nat.one_le_div_iff (by omega)).mpr (by omega)
  obtain ⟨k, hk⟩ : ∃ k, (size + MBS * 2 - 3) / (MBS - 1) = k + 1 :=
    ⟨_, (Nat.succ_pred_eq_of_pos hcnt).symm⟩
  simp only [with_size, if_pos hgt, hk]
  have hinv1 : ring_inv MBS [{ make_block MBS with next := 0 }] 1 := by
    refine ⟨rfl, ?_⟩
    intro i hi
    have hi0 : i = 0 := by omega
    subst hi0
    rw [if_pos rfl]
    rfl
  have hloop := with_size_loop_inv MBS k [{ make_block MBS with next := 0 }] 1 (by omega) hinv1
  have step : with_size_loop MBS (k + 1) [] none none =
      with_size_loop MBS k [{ make_block MBS with next := 0 }] (some 0) (some 0) := rfl
  rw [step]
  norm_num at hloop
  refine ⟨by simp [hloop.1], ?_⟩
  have he : 1 + k = k + 1 := by omega
  rw [he] at hloop
  exact hloop.2

theorem with_size_single (MBS size : Nat)
    (hle : ¬ MBS * 2 < ceil_to_pow2 (size + 1)) :
    with_size MBS size =
      ({ front_block := 0, tail_block := 0,
         largest_block_size := ceil_to_pow2 (size + 1),
         enqueuing := false, dequeuing := false },
       [{ make_block (ceil_to_pow2 (size + 1)) with next := 0 }]) := by
  simp only [with_size, if_neg hle]
  rfl

/-! ### Fresh queues are observed empty -/

theorem try_dequeue_on_empty (q : ReaderWriterQueue) (h : Heap)
    (hq : q.front_block = q.tail_block)
    (hf : (getBlock h q.front_block).front = 0)
    (ht : (getBlock h q.front_block).tail = 0)
    (hl : (getBlock h q.front_block).local_tail = 0) :
    (try_dequeue q h).map DeqOut.result = some none := by
  unfold try_dequeue
  simp [hf, ht, hl, hq.symm]

theorem peek_on_empty (q : ReaderWriterQueue) (h : Heap)
    (hd : q.dequeuing = false)
    (hq : q.front_block = q.tail_block)
    (hf : (getBlock h q.front_block).front = 0)
    (ht : (getBlock h q.front_block).tail = 0)
    (hl : (getBlock h q.front_block).local_tail = 0) :
    (peek q h).map Prod.fst = some none := by
  unfold peek
  simp [hd, hf, ht, hl, hq.symm]

theorem with_size_front_state (MBS size : Nat) (hmbs : 2 ≤ MBS) :
    (with_size MBS size).1.front_block = 0 ∧ (with_size MBS size).1.tail_block = 0 ∧
    (with_size MBS size).1.dequeuing = false ∧
    (getBlock (with_size MBS size).2 0).front = 0 ∧
    (getBlock (with_size MBS size).2 0).tail = 0 ∧
    (getBlock (with_size MBS size).2 0).local_tail = 0 := by
  by_cases hc : MBS * 2 < ceil_to_pow2 (size + 1)
  · obtain ⟨hqueue, hinv⟩ := with_size_multi MBS size hmbs hc
    have hcnt : 1 ≤ (size + MBS * 2 - 3) / (MBS - 1) :=
      (Nat.one_le_div_iff (by omega)).mpr (by omega)
    have hb := hinv.2 0 (by omega)
    rw [hqueue, hb]
    exact ⟨rfl, rfl, rfl, rfl, rfl, rfl⟩
  · rw [with_size_single MBS size hc]
    exact ⟨rfl, rfl, rfl, rfl, rfl, rfl⟩

/-! ### Claim theorems on concrete inputs -/

/-- C1: the claim states FIFO order: elements successfully enqueued with no
interleaved dequeues are returned, in order, by as many `try_dequeue` calls.
The code violates it: `inner_enqueue` returns `true` without storing the
element, so after a successful `try_enqueue` of `1` on a fresh `with_size(15)`
queue the single `try_dequeue` returns `None` instead of `Some(1)`. -/
theorem enqueue_then_dequeue_returns_nothing :
    ∃ q1 h1, try_enqueue (with_size 512 15).1 (with_size 512 15).2 1 = some (true, q1, h1) ∧
      (try_dequeue q1 h1).map DeqOut.result = some none := by
  refine ⟨_, _, rfl, ?_⟩
  decide

/-- C2: the claim states the `(n+1)`-th `try_enqueue` on a capacity-hint-`n`
queue returns `false`.  The code violates it: `inner_enqueue` always returns
`true`, so all sixteen `try_enqueue` calls on a fresh `with_size(15)` queue
return `true`, the sixteenth included. -/
theorem sixteen_try_enqueues_all_return_true :
    (try_enqueue_all (with_size 512 15).1 (with_size 512 15).2 (List.range 16)).map
      (fun r => r.1) = some (List.replicate 16 true) := by
  decide

/-- C3: the claim states a successfully dequeued element's slot gets no
queue-side destructor (ownership moves to the caller), and teardown destroys
each resident element exactly once.  On the state a correct enqueue of `42`
leaves behind, `try_dequeue` returns `Some 42` but also executes one
`drop_in_place` on that same slot (queue.rs:149-150), a double drop; the
teardown count on that state is the correct `1`. -/
theorem dequeue_runs_destructor_on_dequeued_slot :
    (try_dequeue queue_after_one_intended_enqueue.1 queue_after_one_intended_enqueue.2).map
      DeqOut.result = some (some 42) ∧
    (try_dequeue queue_after_one_intended_enqueue.1 queue_after_one_intended_enqueue.2).map
      DeqOut.drops = some 1 ∧
    queue_drop queue_after_one_intended_enqueue.1 queue_after_one_intended_enqueue.2 = 1 := by
  refine ⟨by decide, by decide, by decide⟩

/-- C6: the claim states `size_approx` returns `k` after `k` successful
enqueues and no dequeues.  The code violates it for `k = 1`: the enqueue is a
stub that moves no cursor, so `size_approx` returns `0` after one successful
`try_enqueue` on a fresh `with_size(15)` queue. -/
theorem size_approx_zero_after_successful_enqueue :
    (try_enqueue (with_size 512 15).1 (with_size 512 15).2 7).map (fun r => r.1) = some true ∧
    (try_enqueue (with_size 512 15).1 (with_size 512 15).2 7).map
      (fun r => size_approx r.2.1 r.2.2) = some 0 := by
  refine ⟨by decide, by decide⟩

/-- C8: the claim states an operation sets the shared guard flag for the
duration of the call so that a re-entrant call on the same side panics.  The
code violates it: `ReentrantGuard::new` stores `true` into a freshly created
`AtomicBool` instead of the shared flag, so after a first successful
acquisition the shared flag is still `false` and a second, re-entrant
acquisition also succeeds instead of hitting the `assert!`. -/
theorem reentrant_guard_misses_reentry :
    ∃ s1 g1, ReentrantGuard.new false = some (s1, g1) ∧ s1 = false ∧
      (ReentrantGuard.new s1).isSome = true :=
  ⟨false, ⟨true⟩, rfl, rfl, rfl⟩

/-- C10: the claim states `make_block(c)` allocates at least
`size_of::<Block>() + c * size_of::<T>()` bytes so every slot of the `c`
requested fits.  The code violates it: the computed size ignores `c`
entirely and reserves room for a single element.  Instantiated at the
64-bit layout (`size_of::<Block>() = 160`, `align_of::<Block>() = 8`) and
`T = u64` with `c = 512`: 182 bytes are allocated where at least 4256 are
needed. -/
theorem make_block_alloc_ignores_capacity :
    (∀ c1 c2 : Nat, make_block_alloc_size c1 160 8 8 8 = make_block_alloc_size c2 160 8 8 8) ∧
    make_block_alloc_size 512 160 8 8 8 < 160 + 512 * 8 :=
  ⟨fun _ _ => rfl, by decide⟩

/-- C5 counterexample: the claim says the multi-block constructor allocates
`ceil((n + 2*MAX_BLOCK_SIZE - 3) / (MAX_BLOCK_SIZE - 1))` blocks; the code
uses integer (floor) division.  At `MAX_BLOCK_SIZE = 512`, `n = 1024` the
code allocates `2045 / 511 = 4` blocks while the claimed ceiling is `5`. -/
theorem with_size_block_count_not_ceil :
    (with_size 512 1024).2.length = 4 ∧ ceilDiv (1024 + 2 * 512 - 3) (512 - 1) = 5 := by
  refine ⟨by decide, by decide⟩

/-- C9 counterexample: the claim says `ceil_to_pow2` is exact for every
representable input.  At `x = 0` the wrapping decrement produces
`usize::MAX`, the smear keeps it, and the wrapping increment returns `0`,
which is not a power of two (the least power of two `≥ 0` is `1`); at
`x = 2^63 + 1` the result also wraps to `0` instead of being `2^64`-unrepresentable
handled exactly.  (In a debug build both inputs panic on overflow instead.) -/
theorem ceil_to_pow2_wraps_to_zero :
    ceil_to_pow2 0 = 0 ∧ (∀ k : Nat, ceil_to_pow2 0 ≠ 2 ^ k) ∧
      ceil_to_pow2 (2 ^ 63 + 1) = 0 := by
  refine ⟨by decide, ?_, by decide⟩
  intro k hk
  have h1 : 0 < 2 ^ k := pow_pos (by norm_num) k
  have h0 : ceil_to_pow2 0 = 0 := by decide
  omega

/-- C7: after `from_other`, the returned queue's `front_block` and
`tail_block` are exactly the source's prior pointers, every pre-existing
block of the ring is untouched (so the returned queue holds exactly the
elements the source held), and the source is left pointing (front and tail)
at a freshly allocated block — heap index `h.length`, beyond the old heap —
of size 32, linked to itself, with both cursors zero (empty). -/
theorem from_other_transfers_ring (other : ReaderWriterQueue) (h : Heap) :
    (from_other other h).1.front_block = other.front_block ∧
    (from_other other h).1.tail_block = other.tail_block ∧
    (from_other other h).2.2.length = h.length + 1 ∧
    (∀ i, i < h.length → getBlock (from_other other h).2.2 i = getBlock h i) ∧
    (from_other other h).2.1.front_block = h.length ∧
    (from_other other h).2.1.tail_block = h.length ∧
    getBlock (from_other other h).2.2 h.length = { make_block 32 with next := h.length } := by
  refine ⟨rfl, rfl, ?_, ?_, rfl, rfl, ?_⟩
  · simp [from_other, setBlock]
  · intro i hi
    show getBlock (setBlock (h ++ [make_block 32]) h.length _) i = getBlock h i
    rw [getBlock_setBlock_other _ _ _ _ (by omega), getBlock_append_lt _ _ _ hi]
  · show getBlock (setBlock (h ++ [make_block 32]) h.length _) h.length = _
    rw [getBlock_setBlock_self _ _ _ (by simp), getBlock_append_len]

/-- C4: on a freshly constructed queue (any capacity hint, with the default
`MAX_BLOCK_SIZE = 512`), `try_dequeue` returns no value and `peek` returns
no value — every block starts with equal (zero) cursors and the front and
tail block pointers coincide, so both operations take their empty paths. -/
theorem fresh_queue_dequeue_and_peek_return_none (size : Nat) :
    (try_dequeue (with_size 512 size).1 (with_size 512 size).2).map DeqOut.result = some none ∧
    (peek (with_size 512 size).1 (with_size 512 size).2).map Prod.fst = some none := by
  obtain ⟨h1, h2, h3, h4, h5, h6⟩ := with_size_front_state 512 size (by norm_num)
  constructor
  · exact try_dequeue_on_empty _ _ (by rw [h1, h2]) (by rw [h1]; exact h4)
      (by rw [h1]; exact h5) (by rw [h1]; exact h6)
  · exact peek_on_empty _ _ h3 (by rw [h1, h2]) (by rw [h1]; exact h4)
      (by rw [h1]; exact h5) (by rw [h1]; exact h6)

/-- C5 (amended): for a capacity hint `n`, construction computes
`target = ceil_to_pow2(n + 1)`; if `target ≤ 2 * MAX_BLOCK_SIZE` it
allocates exactly one block of size `target` linked to itself, and otherwise
it allocates exactly `(n + 2*MAX_BLOCK_SIZE - 3) / (MAX_BLOCK_SIZE - 1)`
blocks — floor division, not the ceiling the claim states — each of size
`MAX_BLOCK_SIZE`, linked into a cycle (block `i` points to block `i + 1`,
the last back to block `0`).  The hypotheses are the source's construction
asserts on `MAX_BLOCK_SIZE`. -/
theorem with_size_layout (MAX_BLOCK_SIZE size : Nat)
    (hpow : MAX_BLOCK_SIZE = ceil_to_pow2 MAX_BLOCK_SIZE)
    (hmbs : 2 ≤ MAX_BLOCK_SIZE) :
    ((with_size MAX_BLOCK_SIZE size).1.front_block = 0 ∧
      (with_size MAX_BLOCK_SIZE size).1.tail_block = 0) ∧
    (ceil_to_pow2 (size + 1) ≤ MAX_BLOCK_SIZE * 2 →
      (with_size MAX_BLOCK_SIZE size).2 =
        [{ make_block (ceil_to_pow2 (size + 1)) with next := 0 }]) ∧
    (MAX_BLOCK_SIZE * 2 < ceil_to_pow2 (size + 1) →
      (with_size MAX_BLOCK_SIZE size).2.length =
          (size + MAX_BLOCK_SIZE * 2 - 3) / (MAX_BLOCK_SIZE - 1) ∧
      ∀ i, i < (with_size MAX_BLOCK_SIZE size).2.length →
        getBlock (with_size MAX_BLOCK_SIZE size).2 i =
          { make_block MAX_BLOCK_SIZE with
              next := if i + 1 = (with_size MAX_BLOCK_SIZE size).2.length then 0 else i + 1 }) := by
  refine ⟨?_, ?_, ?_⟩
  · by_cases hc : MAX_BLOCK_SIZE * 2 < ceil_to_pow2 (size + 1)
    · rw [(with_size_multi MAX_BLOCK_SIZE size hmbs hc).1]
      exact ⟨rfl, rfl⟩
    · rw [with_size_single MAX_BLOCK_SIZE size hc]
      exact ⟨rfl, rfl⟩
  · intro hle
    rw [with_size_single MAX_BLOCK_SIZE size (by omega)]
  · intro hgt
    obtain ⟨hqueue, hlen, hblocks⟩ := with_size_multi MAX_BLOCK_SIZE size hmbs hgt
    refine ⟨hlen, ?_⟩
    intro i hi
    rw [hlen] at hi
    rw [hblocks i hi, hlen]

/-- C5 witness: the layout theorem applied at `MAX_BLOCK_SIZE = 512`,
`n = 1024` (the multi-block branch). -/
theorem with_size_layout_witness :
    ((with_size 512 1024).1.front_block = 0 ∧ (with_size 512 1024).1.tail_block = 0) ∧
    (ceil_to_pow2 (1024 + 1) ≤ 512 * 2 →
      (with_size 512 1024).2 = [{ make_block (ceil_to_pow2 (1024 + 1)) with next := 0 }]) ∧
    (512 * 2 < ceil_to_pow2 (1024 + 1) →
      (with_size 512 1024).2.length = (1024 + 512 * 2 - 3) / (512 - 1) ∧
      ∀ i, i < (with_size 512 1024).2.length →
        getBlock (with_size 512 1024).2 i =
          { make_block 512 with
              next := if i + 1 = (with_size 512 1024).2.length then 0 else i + 1 }) :=
  with_size_layout 512 1024 (by decide) (by decide)

/-- C9 (amended): for every `x` with `1 ≤ x ≤ 2^63`, `ceil_to_pow2 x` is the
least power of two that is at least `x`; outside that range the wrapping
64-bit arithmetic makes the result `0` (see the counterexample theorem). -/
theorem ceil_to_pow2_least (x : Nat) (h1 : 1 ≤ x) (h2 : x ≤ 2 ^ 63) :
    x ≤ ceil_to_pow2 x ∧ (∃ k, ceil_to_pow2 x = 2 ^ k) ∧
      ∀ k, x ≤ 2 ^ k → ceil_to_pow2 x ≤ 2 ^ k := by
  rw [ceil_to_pow2_eq_pow_size x h1 h2]
  refine ⟨?_, ⟨_, rfl⟩, ?_⟩
  · have hlt := Nat.lt_size_self (x - 1)
    omega
  · intro k hk
    apply Nat.pow_le_pow_right (by norm_num)
    apply Nat.size_le.mpr
    have hp : 0 < 2 ^ k := pow_pos (by norm_num) k
    omega

/-- C9 witness: exactness applied at `x = 5` (whose rounding is `8`). -/
theorem ceil_to_pow2_least_witness :
    5 ≤ ceil_to_pow2 5 ∧ (∃ k, ceil_to_pow2 5 = 2 ^ k) ∧
      ∀ k, 5 ≤ 2 ^ k → ceil_to_pow2 5 ≤ 2 ^ k :=
  ceil_to_pow2_least 5 (by decide) (by decide)

end RWQueue
